import Mathlib

/-!
Verification of the per-batch training step of the OverparametrizedGroupDRO
repository (`src/train.py`).  Tensors are modelled as lists of rationals,
batches as parallel lists, and the metrics dictionary as an association
list.  The network, the per-sample cross-entropy (`nn.CrossEntropyLoss`
with reduction `none`) and the HSIC statistic (imported by `train.py`
from `src.utils.hsic`) are abstract function parameters of the model:
every claim treated here speaks about how `train.py` combines their
outputs, not about their internals.
-/

/-- Row of `torch.nn.functional.one_hot`: the one-hot encoding of index
`i` over `num` classes (all zeros when `i ≥ num`; PyTorch raises there,
and theorems about group metrics carry the in-range hypothesis). -/
def one_hot (i num : Nat) : List ℚ :=
  (List.range num).map (fun j => if j = i then (1 : ℚ) else 0)

/-- Index of the first maximal entry of a vector (`torch.argmax` on one
row of the prediction tensor). -/
def argmaxIdx : List ℚ → Nat
  | [] => 0
  | [_] => 0
  | a :: b :: t =>
      let j := argmaxIdx (b :: t)
      if a < (b :: t).getD j 0 then j + 1 else 0

/-- Per-sample indicator that the argmax prediction matches the label:
`(torch.argmax(y_hat, 1) == labels).float()`. -/
def correctInd (y_hat : List (List ℚ)) (labels : List Nat) : List ℚ :=
  List.zipWith (fun v l => if argmaxIdx v = l then (1 : ℚ) else 0) y_hat labels

/-- The function `pytorch_lightning.metrics.functional.accuracy` on a logit tensor:
argmax over the class dimension, then the mean of the match indicator. -/
def accuracy (y_hat : List (List ℚ)) (labels : List Nat) : ℚ :=
  (correctInd y_hat labels).sum / (y_hat.length : ℚ)

/-- A batch as `train.py` receives it: `x` plus the label dictionary `y`
with its two keys `group_idx` and `Blond_Hair` (parallel lists). -/
structure Batch (α : Type) where
  x : List α
  group_idx : List Nat
  Blond_Hair : List Nat

/-- The `hsic` section of the parsed config (only `weight` is read by
`Model.step`). -/
structure HsicConfig where
  weight : ℚ

/-- The slice of the parsed config that `Model.step` reads. -/
structure Config where
  hsic : HsicConfig

/-- The `Model` class of `train.py`.  `network` is the configured
network applied to one sample, `cross_entropy` is the per-sample loss
of `nn.CrossEntropyLoss(reduction='none')`, and `HSIC` is the statistic
imported from `src.utils.hsic`; all three are external collaborators and
are kept abstract. -/
structure Model (α : Type) where
  config : Config
  network : α → List ℚ
  cross_entropy : List ℚ → Nat → ℚ
  HSIC : List (List ℚ) → List (List ℚ) → ℚ

/-- The forward pass `self.forward(x) = self.network(x)`, applied
row-wise to the batch. -/
def Model.forward (m : Model α) (x : List α) : List (List ℚ) :=
  x.map m.network

/-- Method `Model.__get_group_metrics`: builds the one-hot group map, adds one
to each zero group count (the `# avoid nans` line), and averages a
per-sample vector over each of the four groups via `group_map.t() @ m`.
Returns `(group_cross_entropy, group_acc)`. -/
def Model.get_group_metrics (y_group y_blond : List Nat)
    (y_hat : List (List ℚ)) (cross_entropies : List ℚ) : List ℚ × List ℚ :=
  let group_map : List (List ℚ) := y_group.map (fun gi => one_hot gi 4)
  let group_count : List ℚ :=
    (List.range 4).map (fun g => (group_map.map (fun row => row.getD g 0)).sum)
  let n : List ℚ :=
    List.zipWith (fun c z => c + z) group_count
      (group_count.map (fun c => if c = 0 then (1 : ℚ) else 0))
  let compute_group_avg : List ℚ → List ℚ := fun mvec =>
    (List.range 4).map (fun g =>
      (List.zipWith (fun row mi => row.getD g 0 * mi) group_map mvec).sum
        / n.getD g 1)
  let group_cross_entropy := compute_group_avg cross_entropies
  let group_acc := compute_group_avg (correctInd y_hat y_blond)
  (group_cross_entropy, group_acc)

/-- Method `Model.step`: forward pass, per-sample cross-entropies, their mean,
the HSIC penalty on the parity encoding `c`, the accuracy, the combined
loss, and the metrics dictionary, returned as `(loss, metrics)`. -/
def Model.step (m : Model α) (b : Batch α) : ℚ × List (String × ℚ) :=
  let c : List (List ℚ) := b.group_idx.map (fun gi => one_hot (gi % 2) 2)
  let y_hat := m.forward b.x
  let cross_entropies := List.zipWith m.cross_entropy y_hat b.Blond_Hair
  let cross_entropy := cross_entropies.sum / (cross_entropies.length : ℚ)
  let hsic := m.HSIC c y_hat
  let acc := accuracy y_hat b.Blond_Hair
  let loss := cross_entropy + m.config.hsic.weight * hsic
  let gm := Model.get_group_metrics b.group_idx b.Blond_Hair y_hat cross_entropies
  let group_cross_entropy := gm.1
  let group_acc := gm.2
  (loss,
    [("acc", acc),
     ("loss", loss),
     ("hsic", hsic),
     ("cross_entropy", cross_entropy),
     ("cross_entropy_group_0", group_cross_entropy.getD 0 0),
     ("cross_entropy_group_1", group_cross_entropy.getD 1 0),
     ("cross_entropy_group_2", group_cross_entropy.getD 2 0),
     ("cross_entropy_group_3", group_cross_entropy.getD 3 0),
     ("acc_group_0", group_acc.getD 0 0),
     ("acc_group_1", group_acc.getD 1 0),
     ("acc_group_2", group_acc.getD 2 0),
     ("acc_group_3", group_acc.getD 3 0)])

/-- Method `Model.training_step`: calls `step`, adding the key marker `train_`
to every metric; the pair holds the returned loss and the dictionary passed
to `self.log_dict`. -/
def Model.training_step (m : Model α) (b : Batch α) : ℚ × List (String × ℚ) :=
  let r := m.step b
  (r.1, r.2.map (fun kv => ("train_" ++ kv.1, kv.2)))

/-- Method `Model.validation_step`: calls `step`, adding the key marker `val_`
to every metric; the pair holds the returned loss and the dictionary passed
to `self.log_dict`. -/
def Model.validation_step (m : Model α) (b : Batch α) : ℚ × List (String × ℚ) :=
  let r := m.step b
  (r.1, r.2.map (fun kv => ("val_" ++ kv.1, kv.2)))

/-- Value stored in the dictionary returned by
`Model.configure_optimizers`: the optimizer itself, or the
`lr_scheduler` sub-dictionary `(scheduler, monitor)`. -/
inductive OptEntry (ο σ : Type) where
  | opt (o : ο)
  | sched (s : σ) (monitor : String)
deriving DecidableEq

/-- Method `Model.configure_optimizers`: builds the optimizer from the config
factory, asks the scheduler factory for a scheduler, and returns
`ret_opt`, adding the `lr_scheduler` entry (with monitor `val_loss`)
exactly when the scheduler is not `None`. -/
def Model.configure_optimizers (get_optimizer : Unit → ο)
    (get_scheduler : ο → Option σ) : List (String × OptEntry ο σ) :=
  let optimizer := get_optimizer ()
  let scheduler := get_scheduler optimizer
  let ret_opt : List (String × OptEntry ο σ) := [("optimizer", .opt optimizer)]
  match scheduler with
  | some s => ret_opt ++ [("lr_scheduler", .sched s "val_loss")]
  | none => ret_opt

/-- The per-sample cross-entropy vector of a batch, as `step` computes
it from the single forward pass. -/
def Model.cross_entropies (m : Model α) (b : Batch α) : List ℚ :=
  List.zipWith m.cross_entropy (m.forward b.x) b.Blond_Hair

/-- The parity encoding `c` of `step`: two-class one-hot of
`group_idx % 2`. -/
def parityEncoding (y_group : List Nat) : List (List ℚ) :=
  y_group.map (fun gi => one_hot (gi % 2) 2)

/-- Spec-side helper: the sub-list of the per-sample vector `ms`
belonging to samples whose group index equals `g`. -/
def groupFilter (g : Nat) (ys : List Nat) (ms : List ℚ) : List ℚ :=
  ((ys.zip ms).filter (fun p => p.1 = g)).map Prod.snd

/-- Spec-side helper: the mean of a per-sample vector over the samples
of group `g`. -/
def groupMean (g : Nat) (ys : List Nat) (ms : List ℚ) : ℚ :=
  (groupFilter g ys ms).sum / ((groupFilter g ys ms).length : ℚ)

/-- Spec-side helper: how many samples of the batch are in group `g`. -/
def groupCountNat (g : Nat) (ys : List Nat) : Nat :=
  (ys.filter (fun gi => gi = g)).length

/-- Instrumented forward pass: the network is applied to the batch and
one invocation is counted. -/
def Model.forwardCounted (m : Model α) (x : List α) : List (List ℚ) × Nat :=
  (x.map m.network, 1)

/-- Variant of `Model.step` with the forward pass instrumented by an invocation
counter; the body is line-for-line that of `Model.step`, and the single
tensor `y_hat` produced by the one forward call feeds the loss, the
HSIC penalty, the accuracy and the group metrics. -/
def Model.stepCounted (m : Model α) (b : Batch α) :
    (ℚ × List (String × ℚ)) × Nat :=
  let c : List (List ℚ) := b.group_idx.map (fun gi => one_hot (gi % 2) 2)
  let fw := m.forwardCounted b.x
  let y_hat := fw.1
  let cross_entropies := List.zipWith m.cross_entropy y_hat b.Blond_Hair
  let cross_entropy := cross_entropies.sum / (cross_entropies.length : ℚ)
  let hsic := m.HSIC c y_hat
  let acc := accuracy y_hat b.Blond_Hair
  let loss := cross_entropy + m.config.hsic.weight * hsic
  let gm := Model.get_group_metrics b.group_idx b.Blond_Hair y_hat cross_entropies
  let group_cross_entropy := gm.1
  let group_acc := gm.2
  ((loss,
    [("acc", acc),
     ("loss", loss),
     ("hsic", hsic),
     ("cross_entropy", cross_entropy),
     ("cross_entropy_group_0", group_cross_entropy.getD 0 0),
     ("cross_entropy_group_1", group_cross_entropy.getD 1 0),
     ("cross_entropy_group_2", group_cross_entropy.getD 2 0),
     ("cross_entropy_group_3", group_cross_entropy.getD 3 0),
     ("acc_group_0", group_acc.getD 0 0),
     ("acc_group_1", group_acc.getD 1 0),
     ("acc_group_2", group_acc.getD 2 0),
     ("acc_group_3", group_acc.getD 3 0)]), fw.2)

/-- The body of `Model.step` abstracted over the prediction tensor:
every quantity it returns is a function of the one argument `y_hat`. -/
def Model.stepFromPred (m : Model α) (b : Batch α)
    (y_hat : List (List ℚ)) : ℚ × List (String × ℚ) :=
  let c : List (List ℚ) := b.group_idx.map (fun gi => one_hot (gi % 2) 2)
  let cross_entropies := List.zipWith m.cross_entropy y_hat b.Blond_Hair
  let cross_entropy := cross_entropies.sum / (cross_entropies.length : ℚ)
  let hsic := m.HSIC c y_hat
  let acc := accuracy y_hat b.Blond_Hair
  let loss := cross_entropy + m.config.hsic.weight * hsic
  let gm := Model.get_group_metrics b.group_idx b.Blond_Hair y_hat cross_entropies
  let group_cross_entropy := gm.1
  let group_acc := gm.2
  (loss,
    [("acc", acc),
     ("loss", loss),
     ("hsic", hsic),
     ("cross_entropy", cross_entropy),
     ("cross_entropy_group_0", group_cross_entropy.getD 0 0),
     ("cross_entropy_group_1", group_cross_entropy.getD 1 0),
     ("cross_entropy_group_2", group_cross_entropy.getD 2 0),
     ("cross_entropy_group_3", group_cross_entropy.getD 3 0),
     ("acc_group_0", group_acc.getD 0 0),
     ("acc_group_1", group_acc.getD 1 0),
     ("acc_group_2", group_acc.getD 2 0),
     ("acc_group_3", group_acc.getD 3 0)])

/-- The column `g` of `group_map.t() @ m`, over the raw batch lists. -/
def groupDot (g : Nat) (ys : List Nat) (ms : List ℚ) : ℚ :=
  (List.zipWith (fun gi mi => (one_hot gi 4).getD g 0 * mi) ys ms).sum

/-- The column `g` of `group_map.sum(0)`: the group count as a rational. -/
def groupCountQ (g : Nat) (ys : List Nat) : ℚ :=
  (ys.map (fun gi => (one_hot gi 4).getD g 0)).sum

/-- The vector of four per-group cross-entropies that `step` computes. -/
def Model.group_cross_entropy (m : Model α) (b : Batch α) : List ℚ :=
  (Model.get_group_metrics b.group_idx b.Blond_Hair (m.forward b.x)
    (m.cross_entropies b)).1

/-- The vector of four per-group accuracies that `step` computes. -/
def Model.group_acc (m : Model α) (b : Batch α) : List ℚ :=
  (Model.get_group_metrics b.group_idx b.Blond_Hair (m.forward b.x)
    (m.cross_entropies b)).2

/-- A small concrete model instance used by the witnesses. -/
def exampleModel : Model Nat where
  config := { hsic := { weight := 1 } }
  network := fun n => [(n : ℚ), 0]
  cross_entropy := fun v l => v.getD 0 0 + (l : ℚ)
  HSIC := fun a b => (a.length : ℚ) + (b.length : ℚ)

/-- A small concrete batch used by the witnesses. -/
def exampleBatch : Batch Nat where
  x := [0, 1, 2]
  group_idx := [0, 1, 2]
  Blond_Hair := [0, 1, 1]

/-- Claim C1: the scalar loss returned by `Model.step` is the mean of
the per-sample cross-entropies between the forward-pass predictions and
the `Blond_Hair` labels plus `config.hsic.weight` times the HSIC
penalty; the per-group diagnostic metrics do not appear in it. -/
theorem step_loss_eq_mean_ce_add_weighted_hsic (m : Model α) (b : Batch α) :
    (m.step b).1 =
      (m.cross_entropies b).sum / ((m.cross_entropies b).length : ℚ)
        + m.config.hsic.weight * m.HSIC (parityEncoding b.group_idx) (m.forward b.x) := by
  rfl

/-- Claim C6: `Model.step` returns a loss together with a metrics
dictionary whose keys are exactly `acc`, `loss`, `hsic`,
`cross_entropy`, the four `cross_entropy_group_g` and the four
`acc_group_g`; the entry `loss` stores the returned scalar loss and the
entry `hsic` stores the unweighted HSIC penalty. -/
theorem step_metrics_keys_and_values (m : Model α) (b : Batch α) :
    (m.step b).2.map Prod.fst =
      ["acc", "loss", "hsic", "cross_entropy",
       "cross_entropy_group_0", "cross_entropy_group_1",
       "cross_entropy_group_2", "cross_entropy_group_3",
       "acc_group_0", "acc_group_1", "acc_group_2", "acc_group_3"] ∧
    (m.step b).2.lookup "loss" = some (m.step b).1 ∧
    (m.step b).2.lookup "hsic" =
      some (m.HSIC (parityEncoding b.group_idx) (m.forward b.x)) := by
  refine ⟨rfl, ?_, ?_⟩ <;> rfl

/-- Claim C8: `training_step` and `validation_step` both delegate to
`Model.step`: they return the same scalar loss, log the same metric
values, and differ only in the `train_` versus `val_` key prefix. -/
theorem training_validation_step_agree (m : Model α) (b : Batch α) :
    (m.training_step b).1 = (m.step b).1 ∧
    (m.validation_step b).1 = (m.step b).1 ∧
    (m.training_step b).2 = (m.step b).2.map (fun kv => ("train_" ++ kv.1, kv.2)) ∧
    (m.validation_step b).2 = (m.step b).2.map (fun kv => ("val_" ++ kv.1, kv.2)) ∧
    (m.training_step b).2.map Prod.snd = (m.validation_step b).2.map Prod.snd := by
  refine ⟨rfl, rfl, rfl, rfl, ?_⟩
  simp [Model.training_step, Model.validation_step]

/-- Claim C9: the training step performs the forward pass exactly once
(the instrumented step counts one network invocation), and the loss,
penalty, accuracy and group metrics are all computed from that single
prediction tensor `y_hat = network(x)`. -/
theorem step_single_forward_pass (m : Model α) (b : Batch α) :
    (m.stepCounted b).2 = 1 ∧
    (m.stepCounted b).1 = m.step b ∧
    m.step b = m.stepFromPred b (m.forward b.x) :=
  ⟨rfl, rfl, rfl⟩

/-- Claim C10: `configure_optimizers` always returns a dictionary
holding the optimizer from the config factory, and it holds an
`lr_scheduler` entry (monitoring `val_loss`) exactly when the scheduler
factory returns a scheduler; with no scheduler the dictionary is the
optimizer entry alone. -/
theorem configure_optimizers_spec {ο σ : Type} (get_optimizer : Unit → ο)
    (get_scheduler : ο → Option σ) :
    (Model.configure_optimizers get_optimizer get_scheduler).lookup "optimizer" =
      some (OptEntry.opt (get_optimizer ())) ∧
    (get_scheduler (get_optimizer ()) = none →
      Model.configure_optimizers get_optimizer get_scheduler =
        [("optimizer", OptEntry.opt (get_optimizer ()))]) ∧
    (∀ s, get_scheduler (get_optimizer ()) = some s →
      (Model.configure_optimizers get_optimizer get_scheduler).lookup "lr_scheduler" =
        some (OptEntry.sched s "val_loss")) ∧
    (((Model.configure_optimizers get_optimizer get_scheduler).lookup "lr_scheduler").isSome ↔
      (get_scheduler (get_optimizer ())).isSome) := by
  cases h : get_scheduler (get_optimizer ()) <;>
    simp [Model.configure_optimizers, h, List.lookup]

/-- Closed witness for the claim C10 theorem at a concrete optimizer
and a scheduler factory returning `none`. -/
theorem configure_optimizers_spec_witness :
    Model.configure_optimizers (fun _ => (0 : Nat)) (fun _ => (none : Option Nat)) =
      [("optimizer", OptEntry.opt 0)] :=
  (configure_optimizers_spec (fun _ => (0 : Nat)) (fun _ => (none : Option Nat))).2.1 rfl

/-- Evaluation of a `one_hot` row at an in-range position. -/
theorem one_hot_getD (i num g : Nat) (hg : g < num) :
    (one_hot i num).getD g 0 = if g = i then 1 else 0 := by
  simp [one_hot, List.getD_eq_getElem?_getD, List.getElem?_map, List.getElem?_range, hg]

/-- Variant of `one_hot_getD` in `getElem?` normal form. -/
theorem one_hot_getElem (i num g : Nat) (hg : g < num) :
    (one_hot i num)[g]?.getD 0 = if g = i then (1 : ℚ) else 0 := by
  simpa [List.getD_eq_getElem?_getD] using one_hot_getD i num g hg

/-- Filtering an empty batch yields nothing. -/
theorem groupFilter_nil (g : Nat) (ms : List ℚ) : groupFilter g [] ms = [] := rfl

/-- Filtering with an empty value vector yields nothing. -/
theorem groupFilter_nil_right (g : Nat) (gi : Nat) (ys : List Nat) :
    groupFilter g (gi :: ys) [] = [] := rfl

/-- Unfolding `groupFilter` over a cons cell. -/
theorem groupFilter_cons (g gi : Nat) (ys : List Nat) (mi : ℚ) (ms : List ℚ) :
    groupFilter g (gi :: ys) (mi :: ms) =
      if gi = g then mi :: groupFilter g ys ms else groupFilter g ys ms := by
  by_cases h : gi = g <;> simp [groupFilter, List.filter_cons, h]

/-- The one-hot dot product over a batch is the plain sum over the
samples of group `g`. -/
theorem groupDot_eq_filter_sum (g : Nat) (hg : g < 4) :
    ∀ (ys : List Nat) (ms : List ℚ), groupDot g ys ms = (groupFilter g ys ms).sum
  | [], ms => by simp [groupDot, groupFilter]
  | gi :: ys, [] => by simp [groupDot, groupFilter]
  | gi :: ys, mi :: ms => by
    have ih := groupDot_eq_filter_sum g hg ys ms
    rw [groupFilter_cons]
    by_cases h : gi = g
    · simp [groupDot, one_hot_getElem _ _ _ hg, h] at ih ⊢
      rw [ih]
    · simp [groupDot, one_hot_getElem _ _ _ hg, h, Ne.symm h] at ih ⊢
      rw [ih]

/-- The rational group count is the natural group count. -/
theorem groupCountQ_eq (g : Nat) (hg : g < 4) :
    ∀ ys : List Nat, groupCountQ g ys = (groupCountNat g ys : ℚ)
  | [] => by simp [groupCountQ, groupCountNat]
  | gi :: ys => by
    have ih := groupCountQ_eq g hg ys
    simp [groupCountQ, groupCountNat, List.filter_cons,
      one_hot_getElem _ _ _ hg] at ih ⊢
    by_cases h : gi = g
    · simp [h, ih]
      ring
    · simp [h, Ne.symm h, ih]

/-- With a value vector at least as long as the batch, the filtered
value list has exactly the group count many entries. -/
theorem groupFilter_length (g : Nat) :
    ∀ (ys : List Nat) (ms : List ℚ), ys.length ≤ ms.length →
      (groupFilter g ys ms).length = groupCountNat g ys
  | [], ms, _ => by simp [groupFilter, groupCountNat]
  | gi :: ys, [], h => by simp at h
  | gi :: ys, mi :: ms, h => by
    have ih := groupFilter_length g ys ms (by simpa using h)
    rw [groupFilter_cons]
    by_cases hgi : gi = g <;> simp [groupCountNat, List.filter_cons, hgi] at ih ⊢ <;>
      omega

/-- The filtered value list never has more entries than the group
count. -/
theorem groupFilter_length_le (g : Nat) :
    ∀ (ys : List Nat) (ms : List ℚ),
      (groupFilter g ys ms).length ≤ groupCountNat g ys
  | [], ms => by simp [groupFilter, groupCountNat]
  | gi :: ys, [] => by simp [groupFilter_nil_right, groupCountNat]
  | gi :: ys, mi :: ms => by
    have ih := groupFilter_length_le g ys ms
    rw [groupFilter_cons]
    by_cases hgi : gi = g <;>
      simp [groupCountNat, List.filter_cons, hgi] at ih ⊢ <;> omega

/-- When every group index is below four, the four per-group sums
partition the total sum. -/
theorem sum_groupFilter_sum :
    ∀ (ys : List Nat) (ms : List ℚ), (∀ gi ∈ ys, gi < 4) → ms.length ≤ ys.length →
      ∑ g ∈ Finset.range 4, (groupFilter g ys ms).sum = ms.sum
  | [], ms, _, hlen => by
    have : ms = [] := List.eq_nil_of_length_eq_zero (Nat.le_zero.mp (by simpa using hlen))
    simp [this, groupFilter]
  | gi :: ys, [], _, _ => by simp [groupFilter_nil_right]
  | gi :: ys, mi :: ms, h4, hlen => by
    have ih := sum_groupFilter_sum ys ms (fun x hx => h4 x (List.mem_cons_of_mem _ hx))
      (by simpa using hlen)
    have hgi : gi ∈ Finset.range 4 := Finset.mem_range.mpr (h4 gi (List.mem_cons_self _ _))
    calc ∑ g ∈ Finset.range 4, (groupFilter g (gi :: ys) (mi :: ms)).sum
        = ∑ g ∈ Finset.range 4,
            ((if gi = g then mi else 0) + (groupFilter g ys ms).sum) := by
          refine Finset.sum_congr rfl fun g _ => ?_
          rw [groupFilter_cons]
          by_cases h : gi = g <;> simp [h]
      _ = (∑ g ∈ Finset.range 4, if gi = g then mi else 0)
            + ∑ g ∈ Finset.range 4, (groupFilter g ys ms).sum := Finset.sum_add_distrib
      _ = mi + ms.sum := by
          rw [ih, Finset.sum_ite_eq]
          simp [hgi]

/-- Element `g` of the elementwise combination of a range-map with a
function of itself. -/
theorem zipWith_range_map_getD (f : Nat → ℚ) (h : ℚ → ℚ) (n g : Nat) (d : ℚ)
    (hg : g < n) :
    (List.zipWith (fun c z => c + z) ((List.range n).map f)
        (((List.range n).map f).map h)).getD g d = f g + h (f g) := by
  rw [List.map_map]
  simp [List.getD_eq_getElem?_getD, List.getElem?_zipWith', List.getElem?_map,
    List.getElem?_range, hg]

/-- Element `g` of a map over `List.range`. -/
theorem range_map_getD (f : Nat → ℚ) (n g : Nat) (d : ℚ) (hg : g < n) :
    ((List.range n).map f).getD g d = f g := by
  simp [List.getD_eq_getElem?_getD, List.getElem?_map, List.getElem?_range, hg]

/-- Entry `g` of each output of `Model.get_group_metrics`: a one-hot
dot product divided by the nan-guarded group count. -/
theorem get_group_metrics_getD (g : Nat) (hg : g < 4) (yg yb : List Nat)
    (yh : List (List ℚ)) (ces : List ℚ) :
    (Model.get_group_metrics yg yb yh ces).1.getD g 0 =
      groupDot g yg ces / (if groupCountQ g yg = 0 then 1 else groupCountQ g yg) ∧
    (Model.get_group_metrics yg yb yh ces).2.getD g 0 =
      groupDot g yg (correctInd yh yb) /
        (if groupCountQ g yg = 0 then 1 else groupCountQ g yg) := by
  have hcol : ∀ gg : Nat,
      ((yg.map (fun gi => one_hot gi 4)).map (fun row => row.getD gg 0)).sum
        = groupCountQ gg yg := by
    intro gg
    rw [List.map_map]
    rfl
  have hn :
      (List.zipWith (fun c z => c + z)
          ((List.range 4).map (fun gg =>
            ((yg.map (fun gi => one_hot gi 4)).map (fun row => row.getD gg 0)).sum))
          (((List.range 4).map (fun gg =>
            ((yg.map (fun gi => one_hot gi 4)).map (fun row => row.getD gg 0)).sum)).map
              (fun c => if c = 0 then (1 : ℚ) else 0))).getD g 1
        = (if groupCountQ g yg = 0 then 1 else groupCountQ g yg) := by
    rw [zipWith_range_map_getD _ _ _ _ _ hg, hcol g]
    by_cases h : groupCountQ g yg = 0 <;> simp [h]
  have havg : ∀ mvec : List ℚ,
      (List.zipWith (fun row mi => row.getD g 0 * mi)
          (yg.map (fun gi => one_hot gi 4)) mvec).sum = groupDot g yg mvec := by
    intro mvec
    rw [List.zipWith_map_left]
    rfl
  constructor
  · simp only [Model.get_group_metrics]
    rw [range_map_getD _ _ _ _ hg, hn, havg]
  · simp only [Model.get_group_metrics]
    rw [range_map_getD _ _ _ _ hg, hn, havg]

/-- Claim C3: when every `group_idx` is in range and group `g` is
inhabited, the returned `cross_entropy_group_g` is the mean per-sample
cross-entropy over exactly the samples of group `g`, and `acc_group_g`
is the fraction of those samples whose argmax prediction matches their
`Blond_Hair` label. -/
theorem step_group_metrics_eq_group_means (m : Model α) (b : Batch α) (g : Nat)
    (hg : g < 4) (h4 : ∀ gi ∈ b.group_idx, gi < 4)
    (hlen1 : b.group_idx.length = b.x.length)
    (hlen2 : b.Blond_Hair.length = b.x.length)
    (hcount : groupCountNat g b.group_idx ≠ 0) :
    (m.step b).2.lookup ("cross_entropy_group_" ++ toString g) =
      some (groupMean g b.group_idx (m.cross_entropies b)) ∧
    (m.step b).2.lookup ("acc_group_" ++ toString g) =
      some (groupMean g b.group_idx (correctInd (m.forward b.x) b.Blond_Hair)) := by
  have hne : (groupCountNat g b.group_idx : ℚ) ≠ 0 := Nat.cast_ne_zero.mpr hcount
  have key : ∀ ms : List ℚ, b.group_idx.length ≤ ms.length →
      groupDot g b.group_idx ms /
          (if groupCountQ g b.group_idx = 0 then 1 else groupCountQ g b.group_idx)
        = groupMean g b.group_idx ms := by
    intro ms hlen
    rw [groupMean, groupDot_eq_filter_sum g hg, groupCountQ_eq g hg,
      if_neg hne, groupFilter_length g _ _ hlen]
  have hlce : b.group_idx.length ≤ (m.cross_entropies b).length := by
    simp [Model.cross_entropies, Model.forward, hlen1, hlen2]
  have hlacc : b.group_idx.length ≤ (correctInd (m.forward b.x) b.Blond_Hair).length := by
    simp [correctInd, Model.forward, hlen1, hlen2]
  have hval := get_group_metrics_getD g hg b.group_idx b.Blond_Hair (m.forward b.x)
    (m.cross_entropies b)
  have hval1 := hval.1.trans (key _ hlce)
  have hval2 := hval.2.trans (key _ hlacc)
  refine ⟨?_, ?_⟩ <;> interval_cases g
  · have hk : ("cross_entropy_group_" ++ toString 0) = "cross_entropy_group_0" := rfl
    rw [hk]
    exact (congrArg some hval1)
  · have hk : ("cross_entropy_group_" ++ toString 1) = "cross_entropy_group_1" := rfl
    rw [hk]
    exact (congrArg some hval1)
  · have hk : ("cross_entropy_group_" ++ toString 2) = "cross_entropy_group_2" := rfl
    rw [hk]
    exact (congrArg some hval1)
  · have hk : ("cross_entropy_group_" ++ toString 3) = "cross_entropy_group_3" := rfl
    rw [hk]
    exact (congrArg some hval1)
  · have hk : ("acc_group_" ++ toString 0) = "acc_group_0" := rfl
    rw [hk]
    exact (congrArg some hval2)
  · have hk : ("acc_group_" ++ toString 1) = "acc_group_1" := rfl
    rw [hk]
    exact (congrArg some hval2)
  · have hk : ("acc_group_" ++ toString 2) = "acc_group_2" := rfl
    rw [hk]
    exact (congrArg some hval2)
  · have hk : ("acc_group_" ++ toString 3) = "acc_group_3" := rfl
    rw [hk]
    exact (congrArg some hval2)

/-- Claim C5: the group average never divides by zero: the denominator
for group `g` is the group count when non-zero and `1` otherwise, and a
group with no samples yields exactly `0` for both of its metrics. -/
theorem get_group_metrics_no_div_by_zero (yg yb : List Nat)
    (yh : List (List ℚ)) (ces : List ℚ) (g : Nat) (hg : g < 4)
    (h4 : ∀ gi ∈ yg, gi < 4) :
    (if groupCountNat g yg = 0 then (1 : ℚ) else (groupCountNat g yg : ℚ)) ≠ 0 ∧
    (Model.get_group_metrics yg yb yh ces).1.getD g 0 =
      groupDot g yg ces /
        (if groupCountNat g yg = 0 then 1 else (groupCountNat g yg : ℚ)) ∧
    (Model.get_group_metrics yg yb yh ces).2.getD g 0 =
      groupDot g yg (correctInd yh yb) /
        (if groupCountNat g yg = 0 then 1 else (groupCountNat g yg : ℚ)) ∧
    (groupCountNat g yg = 0 →
      (Model.get_group_metrics yg yb yh ces).1.getD g 0 = 0 ∧
      (Model.get_group_metrics yg yb yh ces).2.getD g 0 = 0) := by
  have hden : (if groupCountQ g yg = 0 then (1 : ℚ) else groupCountQ g yg)
      = (if groupCountNat g yg = 0 then (1 : ℚ) else (groupCountNat g yg : ℚ)) := by
    rw [groupCountQ_eq g hg]
    simp [Nat.cast_eq_zero]
  have hval := get_group_metrics_getD g hg yg yb yh ces
  have hzeroDot : groupCountNat g yg = 0 → ∀ ms : List ℚ, groupDot g yg ms = 0 := by
    intro hc ms
    rw [groupDot_eq_filter_sum g hg]
    have hlen : (groupFilter g yg ms).length = 0 :=
      Nat.le_zero.mp (hc ▸ groupFilter_length_le g yg ms)
    rw [List.eq_nil_of_length_eq_zero hlen]
    rfl
  refine ⟨?_, hval.1.trans (by rw [hden]), hval.2.trans (by rw [hden]), ?_⟩
  · by_cases h : groupCountNat g yg = 0
    · simp [h]
    · simp [h, Nat.cast_ne_zero.mpr h]
  · intro hc
    constructor
    · rw [hval.1, hzeroDot hc, hden, if_pos hc]
      simp
    · rw [hval.2, hzeroDot hc, hden, if_pos hc]
      simp

/-- Claim C7: the overall `cross_entropy` is the group-size-weighted
mean of the four group cross-entropies, and the overall `acc` is the
group-size-weighted mean of the four group accuracies, the weight of
group `g` being its sample count over the batch size. -/
theorem step_overall_metrics_eq_weighted_group_means (m : Model α) (b : Batch α)
    (h4 : ∀ gi ∈ b.group_idx, gi < 4)
    (hlen1 : b.group_idx.length = b.x.length)
    (hlen2 : b.Blond_Hair.length = b.x.length)
    (hpos : b.x.length ≠ 0) :
    (m.step b).2.lookup "cross_entropy" =
      some (∑ g ∈ Finset.range 4,
        ((groupCountNat g b.group_idx : ℚ) / (b.x.length : ℚ)) *
          (Model.get_group_metrics b.group_idx b.Blond_Hair (m.forward b.x)
            (m.cross_entropies b)).1.getD g 0) ∧
    (m.step b).2.lookup "acc" =
      some (∑ g ∈ Finset.range 4,
        ((groupCountNat g b.group_idx : ℚ) / (b.x.length : ℚ)) *
          (Model.get_group_metrics b.group_idx b.Blond_Hair (m.forward b.x)
            (m.cross_entropies b)).2.getD g 0) := by
  have hN : ((b.x.length : ℚ)) ≠ 0 := Nat.cast_ne_zero.mpr hpos
  have main : ∀ ms : List ℚ, ms.length = b.group_idx.length →
      ∑ g ∈ Finset.range 4, ((groupCountNat g b.group_idx : ℚ) / (b.x.length : ℚ)) *
          (groupDot g b.group_idx ms /
            (if groupCountQ g b.group_idx = 0 then 1 else groupCountQ g b.group_idx))
        = ms.sum / (b.x.length : ℚ) := by
    intro ms hms
    have hpart := sum_groupFilter_sum b.group_idx ms h4 (le_of_eq hms)
    calc ∑ g ∈ Finset.range 4, ((groupCountNat g b.group_idx : ℚ) / (b.x.length : ℚ)) *
            (groupDot g b.group_idx ms /
              (if groupCountQ g b.group_idx = 0 then 1 else groupCountQ g b.group_idx))
        = ∑ g ∈ Finset.range 4,
            (groupFilter g b.group_idx ms).sum / (b.x.length : ℚ) := by
          refine Finset.sum_congr rfl fun g hgmem => ?_
          have hg : g < 4 := Finset.mem_range.mp hgmem
          rw [groupDot_eq_filter_sum g hg, groupCountQ_eq g hg]
          by_cases hc : groupCountNat g b.group_idx = 0
          · have hlen : (groupFilter g b.group_idx ms).length = 0 :=
              Nat.le_zero.mp (hc ▸ groupFilter_length_le g b.group_idx ms)
            have hzero : (groupFilter g b.group_idx ms).sum = 0 := by
              rw [List.eq_nil_of_length_eq_zero hlen]
              rfl
            simp [hc, hzero]
          · have hcq : ((groupCountNat g b.group_idx : ℚ)) ≠ 0 := Nat.cast_ne_zero.mpr hc
            rw [if_neg (by simpa [Nat.cast_eq_zero] using hc)]
            field_simp
            ring
      _ = (∑ g ∈ Finset.range 4, (groupFilter g b.group_idx ms).sum) / (b.x.length : ℚ) :=
          (Finset.sum_div _ _ _).symm
      _ = ms.sum / (b.x.length : ℚ) := by rw [hpart]
  constructor
  · have hstep : (m.step b).2.lookup "cross_entropy" =
        some ((m.cross_entropies b).sum / ((m.cross_entropies b).length : ℚ)) := rfl
    have hlen : (m.cross_entropies b).length = b.group_idx.length := by
      simp [Model.cross_entropies, Model.forward, hlen1, hlen2]
    have hsum : ∑ g ∈ Finset.range 4,
          ((groupCountNat g b.group_idx : ℚ) / (b.x.length : ℚ)) *
            (Model.get_group_metrics b.group_idx b.Blond_Hair (m.forward b.x)
              (m.cross_entropies b)).1.getD g 0
        = (m.cross_entropies b).sum / (b.x.length : ℚ) := by
      rw [Finset.sum_congr rfl (fun g hgmem => by
        rw [(get_group_metrics_getD g (Finset.mem_range.mp hgmem) b.group_idx
          b.Blond_Hair (m.forward b.x) (m.cross_entropies b)).1])]
      exact main _ hlen
    rw [hstep, hsum, hlen, hlen1]
  · have hstep : (m.step b).2.lookup "acc" =
        some ((correctInd (m.forward b.x) b.Blond_Hair).sum /
          ((m.forward b.x).length : ℚ)) := rfl
    have hlenf : ((m.forward b.x).length : ℚ) = (b.x.length : ℚ) := by
      simp [Model.forward]
    have hlen : (correctInd (m.forward b.x) b.Blond_Hair).length = b.group_idx.length := by
      simp [correctInd, Model.forward, hlen1, hlen2]
    have hsum : ∑ g ∈ Finset.range 4,
          ((groupCountNat g b.group_idx : ℚ) / (b.x.length : ℚ)) *
            (Model.get_group_metrics b.group_idx b.Blond_Hair (m.forward b.x)
              (m.cross_entropies b)).2.getD g 0
        = (correctInd (m.forward b.x) b.Blond_Hair).sum / (b.x.length : ℚ) := by
      rw [Finset.sum_congr rfl (fun g hgmem => by
        rw [(get_group_metrics_getD g (Finset.mem_range.mp hgmem) b.group_idx
          b.Blond_Hair (m.forward b.x) (m.cross_entropies b)).2])]
      exact main _ hlen
    rw [hstep, hsum, hlenf]

/-- Claim C2: the metrics returned by the training step track the worst
group: the minimum of the four per-group accuracies and the maximum of
the four per-group losses each appear in the returned mapping, under
one of the per-group keys. -/
theorem step_metrics_contain_worst_group (m : Model α) (b : Batch α) :
    (∃ k ∈ ["acc_group_0", "acc_group_1", "acc_group_2", "acc_group_3"],
      (k, min (min ((m.group_acc b).getD 0 0) ((m.group_acc b).getD 1 0))
              (min ((m.group_acc b).getD 2 0) ((m.group_acc b).getD 3 0)))
        ∈ (m.step b).2) ∧
    (∃ k ∈ ["cross_entropy_group_0", "cross_entropy_group_1",
            "cross_entropy_group_2", "cross_entropy_group_3"],
      (k, max (max ((m.group_cross_entropy b).getD 0 0)
                   ((m.group_cross_entropy b).getD 1 0))
              (max ((m.group_cross_entropy b).getD 2 0)
                   ((m.group_cross_entropy b).getD 3 0)))
        ∈ (m.step b).2) := by
  have ha0 : ("acc_group_0", (m.group_acc b).getD 0 0) ∈ (m.step b).2 := by
    simp [Model.step, Model.group_acc, Model.cross_entropies, Model.forward]
  have ha1 : ("acc_group_1", (m.group_acc b).getD 1 0) ∈ (m.step b).2 := by
    simp [Model.step, Model.group_acc, Model.cross_entropies, Model.forward]
  have ha2 : ("acc_group_2", (m.group_acc b).getD 2 0) ∈ (m.step b).2 := by
    simp [Model.step, Model.group_acc, Model.cross_entropies, Model.forward]
  have ha3 : ("acc_group_3", (m.group_acc b).getD 3 0) ∈ (m.step b).2 := by
    simp [Model.step, Model.group_acc, Model.cross_entropies, Model.forward]
  have hc0 : ("cross_entropy_group_0", (m.group_cross_entropy b).getD 0 0) ∈ (m.step b).2 := by
    simp [Model.step, Model.group_cross_entropy, Model.cross_entropies, Model.forward]
  have hc1 : ("cross_entropy_group_1", (m.group_cross_entropy b).getD 1 0) ∈ (m.step b).2 := by
    simp [Model.step, Model.group_cross_entropy, Model.cross_entropies, Model.forward]
  have hc2 : ("cross_entropy_group_2", (m.group_cross_entropy b).getD 2 0) ∈ (m.step b).2 := by
    simp [Model.step, Model.group_cross_entropy, Model.cross_entropies, Model.forward]
  have hc3 : ("cross_entropy_group_3", (m.group_cross_entropy b).getD 3 0) ∈ (m.step b).2 := by
    simp [Model.step, Model.group_cross_entropy, Model.cross_entropies, Model.forward]
  constructor
  · rcases min_choice (min ((m.group_acc b).getD 0 0) ((m.group_acc b).getD 1 0))
        (min ((m.group_acc b).getD 2 0) ((m.group_acc b).getD 3 0)) with h | h
    · rcases min_choice ((m.group_acc b).getD 0 0) ((m.group_acc b).getD 1 0) with h2 | h2
      · exact ⟨"acc_group_0", by simp, by rw [h, h2]; exact ha0⟩
      · exact ⟨"acc_group_1", by simp, by rw [h, h2]; exact ha1⟩
    · rcases min_choice ((m.group_acc b).getD 2 0) ((m.group_acc b).getD 3 0) with h2 | h2
      · exact ⟨"acc_group_2", by simp, by rw [h, h2]; exact ha2⟩
      · exact ⟨"acc_group_3", by simp, by rw [h, h2]; exact ha3⟩
  · rcases max_choice (max ((m.group_cross_entropy b).getD 0 0)
        ((m.group_cross_entropy b).getD 1 0))
        (max ((m.group_cross_entropy b).getD 2 0)
          ((m.group_cross_entropy b).getD 3 0)) with h | h
    · rcases max_choice ((m.group_cross_entropy b).getD 0 0)
          ((m.group_cross_entropy b).getD 1 0) with h2 | h2
      · exact ⟨"cross_entropy_group_0", by simp, by rw [h, h2]; exact hc0⟩
      · exact ⟨"cross_entropy_group_1", by simp, by rw [h, h2]; exact hc1⟩
    · rcases max_choice ((m.group_cross_entropy b).getD 2 0)
          ((m.group_cross_entropy b).getD 3 0) with h2 | h2
      · exact ⟨"cross_entropy_group_2", by simp, by rw [h, h2]; exact hc2⟩
      · exact ⟨"cross_entropy_group_3", by simp, by rw [h, h2]; exact hc3⟩

/-- Claim C4: the fairness penalty `step` stores under `hsic` is the
HSIC statistic applied to the two-class one-hot encoding of
`group_idx % 2` and the forward-pass predictions, and two samples whose
four-way group indices have equal parity receive the identical
encoding. -/
theorem step_hsic_penalty_on_parity_encoding (m : Model α) (b : Batch α) :
    (m.step b).2.lookup "hsic" =
      some (m.HSIC (parityEncoding b.group_idx) (m.forward b.x)) ∧
    ∀ i j, i < b.group_idx.length → j < b.group_idx.length →
      (b.group_idx.getD i 0) % 2 = (b.group_idx.getD j 0) % 2 →
      (parityEncoding b.group_idx).getD i [] = (parityEncoding b.group_idx).getD j [] := by
  have hrow : ∀ i, i < b.group_idx.length →
      (parityEncoding b.group_idx).getD i [] =
        one_hot ((b.group_idx.getD i 0) % 2) 2 := by
    intro i hi
    simp [parityEncoding, List.getD_eq_getElem?_getD, List.getElem?_map,
      List.getElem?_eq_getElem hi]
  refine ⟨rfl, ?_⟩
  intro i j hi hj hpar
  rw [hrow i hi, hrow j hj, hpar]

/-- Closed witness for the claim C4 theorem: in the example batch the
samples of groups 0 and 2 have equal parity and equal encodings. -/
theorem step_hsic_penalty_witness :
    (parityEncoding exampleBatch.group_idx).getD 0 [] =
      (parityEncoding exampleBatch.group_idx).getD 2 [] :=
  (step_hsic_penalty_on_parity_encoding exampleModel exampleBatch).2 0 2
    (by decide) (by decide) (by decide)

/-- Closed witness for the claim C3 theorem at the example batch and
the inhabited group 0. -/
theorem step_group_metrics_witness :
    (exampleModel.step exampleBatch).2.lookup ("cross_entropy_group_" ++ toString 0) =
      some (groupMean 0 exampleBatch.group_idx (exampleModel.cross_entropies exampleBatch)) ∧
    (exampleModel.step exampleBatch).2.lookup ("acc_group_" ++ toString 0) =
      some (groupMean 0 exampleBatch.group_idx
        (correctInd (exampleModel.forward exampleBatch.x) exampleBatch.Blond_Hair)) :=
  step_group_metrics_eq_group_means exampleModel exampleBatch 0 (by decide)
    (by decide) (by decide) (by decide) (by decide)

/-- Closed witness for the claim C5 theorem at a concrete batch whose
group 3 is empty. -/
theorem get_group_metrics_no_div_by_zero_witness :
    (if groupCountNat 3 exampleBatch.group_idx = 0 then (1 : ℚ)
      else (groupCountNat 3 exampleBatch.group_idx : ℚ)) ≠ 0 ∧
    (Model.get_group_metrics exampleBatch.group_idx exampleBatch.Blond_Hair
        (exampleModel.forward exampleBatch.x)
        (exampleModel.cross_entropies exampleBatch)).1.getD 3 0 =
      groupDot 3 exampleBatch.group_idx (exampleModel.cross_entropies exampleBatch) /
        (if groupCountNat 3 exampleBatch.group_idx = 0 then 1
          else (groupCountNat 3 exampleBatch.group_idx : ℚ)) ∧
    (Model.get_group_metrics exampleBatch.group_idx exampleBatch.Blond_Hair
        (exampleModel.forward exampleBatch.x)
        (exampleModel.cross_entropies exampleBatch)).2.getD 3 0 =
      groupDot 3 exampleBatch.group_idx
          (correctInd (exampleModel.forward exampleBatch.x) exampleBatch.Blond_Hair) /
        (if groupCountNat 3 exampleBatch.group_idx = 0 then 1
          else (groupCountNat 3 exampleBatch.group_idx : ℚ)) ∧
    (groupCountNat 3 exampleBatch.group_idx = 0 →
      (Model.get_group_metrics exampleBatch.group_idx exampleBatch.Blond_Hair
          (exampleModel.forward exampleBatch.x)
          (exampleModel.cross_entropies exampleBatch)).1.getD 3 0 = 0 ∧
      (Model.get_group_metrics exampleBatch.group_idx exampleBatch.Blond_Hair
          (exampleModel.forward exampleBatch.x)
          (exampleModel.cross_entropies exampleBatch)).2.getD 3 0 = 0) :=
  get_group_metrics_no_div_by_zero exampleBatch.group_idx exampleBatch.Blond_Hair
    (exampleModel.forward exampleBatch.x) (exampleModel.cross_entropies exampleBatch)
    3 (by decide) (by decide)

/-- Closed witness for the claim C7 theorem at the example batch. -/
theorem step_overall_metrics_witness :
    (exampleModel.step exampleBatch).2.lookup "cross_entropy" =
      some (∑ g ∈ Finset.range 4,
        ((groupCountNat g exampleBatch.group_idx : ℚ) / (exampleBatch.x.length : ℚ)) *
          (Model.get_group_metrics exampleBatch.group_idx exampleBatch.Blond_Hair
            (exampleModel.forward exampleBatch.x)
            (exampleModel.cross_entropies exampleBatch)).1.getD g 0) ∧
    (exampleModel.step exampleBatch).2.lookup "acc" =
      some (∑ g ∈ Finset.range 4,
        ((groupCountNat g exampleBatch.group_idx : ℚ) / (exampleBatch.x.length : ℚ)) *
          (Model.get_group_metrics exampleBatch.group_idx exampleBatch.Blond_Hair
            (exampleModel.forward exampleBatch.x)
            (exampleModel.cross_entropies exampleBatch)).2.getD g 0) :=
  step_overall_metrics_eq_weighted_group_means exampleModel exampleBatch
    (by decide) (by decide) (by decide) (by decide)
